import Mathlib

/-!
Verification of the MTEB evaluation-session orchestration layer
(`mteb/evaluation/MTEB.py`): task selection, data loading, and the
run-and-persist loop.

The Python source is shallowly embedded: the discovered task set
(`self.tasks_cls`) is a parameter, Python dictionaries become structures,
the filesystem becomes an explicit state value, and the external
collaborators (`task.load_data`, `task.evaluate`) become function
parameters that may fail (`Option`/`Except`).
-/

namespace Mteb

/-- Task Descriptor: the `description` dictionary every task carries
(name, type, category, version, eval_splits). -/
structure TaskDesc where
  name : String
  type : String
  category : String
  version : Int
  eval_splits : List String
deriving DecidableEq, Repr

/-- A Task Instance: a descriptor plus the `save_suffix` attribute used to
build output filenames. -/
structure Task where
  description : TaskDesc
  save_suffix : String
deriving DecidableEq, Repr

/-- An element of the explicit `tasks` constructor argument, which in the
source is a heterogeneous list mixing task-name strings with
already-instantiated `AbsTask` objects. -/
inductive TaskRef where
  | byName (s : String)
  | byInst (t : Task)
deriving DecidableEq, Repr

/-- Python membership test `x.description["name"] in self._tasks`:
`in` compares the name with each list element by `==`, which is true only
for equal string elements (an `AbsTask` element never equals a string). -/
def nameMatches (n : String) (L : List TaskRef) : Bool :=
  L.any fun r =>
    match r with
    | TaskRef.byName s => s == n
    | TaskRef.byInst _ => false

/-- `[x for x in self._tasks if isinstance(x, AbsTask)]`: the
already-instantiated tasks of the explicit list, in list order. -/
def instancesOf (L : List TaskRef) : List Task :=
  L.filterMap fun r =>
    match r with
    | TaskRef.byInst t => some t
    | TaskRef.byName _ => none

/-- `(self._task_types is None) or (x.description["type"] in self._task_types)`. -/
def passType (task_types : Option (List String)) (x : Task) : Bool :=
  match task_types with
  | none => true
  | some tys => tys.contains x.description.type

/-- `(self._task_categories is None) or (x.description["category"] in self._task_categories)`. -/
def passCategory (task_categories : Option (List String)) (x : Task) : Bool :=
  match task_categories with
  | none => true
  | some cats => cats.contains x.description.category

/-- `(self._version is None) or (x.description["version"] >= self._version)`. -/
def passVersion (version : Option Int) (x : Task) : Bool :=
  match version with
  | none => true
  | some v => decide (v ≤ x.description.version)

/-- `MTEB.select_tasks`, with the discovered instances `tasks_cls` passed
in explicitly.  If `tasks` is not `None` the discovered instances whose
name occurs in the list are kept (in discovery order) and the
instantiated elements of the list are appended; otherwise the three
predicate filters are chained. -/
def select_tasks (tasks_cls : List Task) (task_types task_categories : Option (List String))
    (version : Option Int) (tasks : Option (List TaskRef)) : List Task :=
  match tasks with
  | some L =>
      tasks_cls.filter (fun x => nameMatches x.description.name L) ++ instancesOf L
  | none =>
      ((tasks_cls.filter (passType task_types)).filter
          (passCategory task_categories)).filter (passVersion version)

/-- `MTEB.load_tasks_data`, with the external loader passed in:
`loadFn t = none` means `t.load_data()` returned normally, `some e` that it
raised `e`.  Returns the list of tasks whose loader was invoked, in
invocation order, and the first error raised, if any (the loop stops
there). -/
def loadTasksData {ε : Type} (loadFn : Task → Option ε) : List Task → List Task × Option ε
  | [] => ([], none)
  | t :: rest =>
      match loadFn t with
      | some e => ([t], some e)
      | none =>
          let p := loadTasksData loadFn rest
          (t :: p.1, p.2)

/-- `MTEB.__init__`: select the tasks, then load their data.  Returns the
selected tasks, the tasks whose loader ran, and the loader error, if any.
Construction (and hence data loading) happens before any call to `run`,
so all loading precedes all evaluation. -/
def mtebInit {ε : Type} (loadFn : Task → Option ε) (tasks_cls : List Task)
    (task_types task_categories : Option (List String)) (version : Option Int)
    (tasks : Option (List TaskRef)) : List Task × List Task × Option ε :=
  let sel := select_tasks tasks_cls task_types task_categories version tasks
  let p := loadTasksData loadFn sel
  (sel, p.1, p.2)

/-- The content handed to `json.dump(task_results, f_out, indent=2,
sort_keys=True)`: the per-split results dictionary in insertion order,
plus the serialization flags the source passes. -/
structure FileContent (ρ : Type) where
  entries : List (String × ρ)
  indent : Nat
  sortKeys : Bool
deriving DecidableEq, Repr

/-- The filesystem state the run loop touches: written files and created
directories. -/
structure FS (ρ : Type) where
  files : List (String × FileContent ρ)
  dirs : List String
deriving DecidableEq, Repr

/-- `os.path.exists(save_path)` over the modelled filesystem. -/
def fileExists {ρ : Type} (path : String) (fs : FS ρ) : Bool :=
  fs.files.any fun p => p.1 == path

/-- `open(save_path, "w")` + `json.dump`: record the file. -/
def writeFile {ρ : Type} (path : String) (c : FileContent ρ) (fs : FS ρ) : FS ρ :=
  { fs with files := fs.files ++ [(path, c)] }

/-- `pathlib.Path(output_folder).mkdir(parents=True, exist_ok=True)`. -/
def mkdir {ρ : Type} (folder : String) (fs : FS ρ) : FS ρ :=
  if fs.dirs.contains folder then fs else { fs with dirs := fs.dirs ++ [folder] }

/-- `os.path.join(output_folder, f"{name}{suffix}.json")`. -/
def savePath (folder : String) (t : Task) : String :=
  folder ++ "/" ++ t.description.name ++ t.save_suffix ++ ".json"

/-- Observable actions of the run loop: an `evaluate` call, a skip of an
already-persisted task, a file write. -/
inductive Event (ρ : Type) where
  | evalCall (t : Task) (split : String)
  | skip (t : Task)
  | write (path : String) (c : FileContent ρ)
deriving DecidableEq, Repr

/-- The inner split loop: `for split in task.description["eval_splits"]:
results = task.evaluate(model, split, **kwargs)`.  `evalFn t s` is the
outcome of `task.evaluate(model, split, **kwargs)`.  Returns the
`evaluate` calls performed and either the `task_results` association list
in split order or the first error raised. -/
def evalSplits {ε ρ : Type} (evalFn : Task → String → Except ε ρ) (t : Task) :
    List String → List (Event ρ) × Except ε (List (String × ρ))
  | [] => ([], Except.ok [])
  | s :: rest =>
      match evalFn t s with
      | Except.error e => ([Event.evalCall t s], Except.error e)
      | Except.ok r =>
          let p := evalSplits evalFn t rest
          (Event.evalCall t s :: p.1,
           match p.2 with
           | Except.error e => Except.error e
           | Except.ok l => Except.ok ((s, r) :: l))

/-- The `for task in self.tasks:` loop of `MTEB.run`: existence check and
skip (only when an output folder is configured), split evaluation, and the
result-file write.  Returns the filesystem after the loop, the events in
order, and the first uncaught evaluation error, if any (the loop aborts
there). -/
def runTasks {ε ρ : Type} (evalFn : Task → String → Except ε ρ) (out : Option String) :
    List Task → FS ρ → FS ρ × List (Event ρ) × Option ε
  | [], fs => (fs, [], none)
  | t :: rest, fs =>
      match out with
      | some folder =>
          let path := savePath folder t
          if fileExists path fs then
            let p := runTasks evalFn out rest fs
            (p.1, Event.skip t :: p.2.1, p.2.2)
          else
            let q := evalSplits evalFn t t.description.eval_splits
            match q.2 with
            | Except.error e => (fs, q.1, some e)
            | Except.ok results =>
                let fs' := writeFile path ⟨results, 2, true⟩ fs
                let p := runTasks evalFn out rest fs'
                (p.1, q.1 ++ [Event.write path ⟨results, 2, true⟩] ++ p.2.1, p.2.2)
      | none =>
          let q := evalSplits evalFn t t.description.eval_splits
          match q.2 with
          | Except.error e => (fs, q.1, some e)
          | Except.ok _ =>
              let p := runTasks evalFn out rest fs
              (p.1, q.1 ++ p.2.1, p.2.2)

/-- Default value of `run`'s `output_folder` parameter. -/
def defaultOutputFolder : Option String := some "results/result"

/-- `MTEB.run`: create the output folder (when configured), then run the
task loop. -/
def run {ε ρ : Type} (evalFn : Task → String → Except ε ρ) (out : Option String)
    (tasks : List Task) (fs : FS ρ) : FS ρ × List (Event ρ) × Option ε :=
  let fs1 := match out with
    | some folder => mkdir folder fs
    | none => fs
  runTasks evalFn out tasks fs1

/-! ### Sample tasks used as concrete inputs -/

/-- A concrete task used in witnesses and counterexamples. -/
def taskA : Task := ⟨⟨"A", "X", "s2s", 1, ["test"]⟩, ""⟩

/-- A second concrete task (distinct name). -/
def taskB : Task := ⟨⟨"B", "Y", "s2s", 2, ["test", "validation"]⟩, ""⟩

/-- A third concrete task (distinct name). -/
def taskC : Task := ⟨⟨"C", "X", "p2p", 2, ["dev"]⟩, ""⟩

/-! ### Helper lemmas about the selector -/

/-- The Python membership test succeeds exactly when the name occurs as a
string element of the explicit list. -/
theorem nameMatches_iff (n : String) (L : List TaskRef) :
    nameMatches n L = true ↔ TaskRef.byName n ∈ L := by
  unfold nameMatches
  rw [List.any_eq_true]
  constructor
  · rintro ⟨r, hr, hm⟩
    cases r with
    | byName s =>
        simp only [beq_iff_eq] at hm
        exact hm ▸ hr
    | byInst t => simp at hm
  · intro h
    exact ⟨TaskRef.byName n, h, by simp⟩

theorem passType_iff (tt : Option (List String)) (x : Task) :
    passType tt x = true ↔ ∀ l, tt = some l → x.description.type ∈ l := by
  cases tt with
  | none => simp [passType]
  | some l => simp [passType, List.elem_iff]

theorem passCategory_iff (tc : Option (List String)) (x : Task) :
    passCategory tc x = true ↔ ∀ l, tc = some l → x.description.category ∈ l := by
  cases tc with
  | none => simp [passCategory]
  | some l => simp [passCategory, List.elem_iff]

theorem passVersion_iff (v : Option Int) (x : Task) :
    passVersion v x = true ↔ ∀ w, v = some w → w ≤ x.description.version := by
  cases v with
  | none => simp [passVersion]
  | some w => simp [passVersion]

/-- C1: with an explicit task list, selection ignores the type, category
and version parameters, keeps exactly the discovered instances whose
descriptor name occurs (as a string) in the list, in discovery order
(the matched part is a sublist of the discovered list), and appends the
already-instantiated elements of the explicit list after the matches. -/
theorem select_tasks_explicit_list (T : List Task) (tt tc : Option (List String))
    (v : Option Int) (L : List TaskRef) :
    select_tasks T tt tc v (some L) = select_tasks T none none none (some L) ∧
    select_tasks T tt tc v (some L) =
      T.filter (fun x => nameMatches x.description.name L) ++ instancesOf L ∧
    (T.filter (fun x => nameMatches x.description.name L)).Sublist T ∧
    (∀ x : Task, nameMatches x.description.name L = true ↔
      TaskRef.byName x.description.name ∈ L) :=
  ⟨rfl, rfl, List.filter_sublist T, fun x => nameMatches_iff x.description.name L⟩

/-- C2: without an explicit list, a discovered task is selected iff it
passes the type, category and version predicates (each vacuous at `none`,
the version one a `≥` floor), selection order is discovery order
(sublist), and with all three parameters `none` every discovered task is
selected. -/
theorem select_tasks_predicate_filters (T : List Task) (tt tc : Option (List String))
    (v : Option Int) :
    (∀ x : Task, x ∈ select_tasks T tt tc v none ↔
        x ∈ T ∧ (∀ l, tt = some l → x.description.type ∈ l) ∧
          (∀ l, tc = some l → x.description.category ∈ l) ∧
          (∀ w, v = some w → w ≤ x.description.version)) ∧
    (select_tasks T tt tc v none).Sublist T ∧
    select_tasks T none none none none = T := by
  refine ⟨fun x => ?_, ?_, ?_⟩
  · unfold select_tasks
    simp only [List.mem_filter, passType_iff, passCategory_iff, passVersion_iff]
    tauto
  · exact ((List.filter_sublist _).trans (List.filter_sublist _)).trans
      (List.filter_sublist T)
  · unfold select_tasks
    rw [List.filter_eq_self.mpr, List.filter_eq_self.mpr, List.filter_eq_self.mpr] <;>
      intro a _ <;> rfl

/-- C9: an explicit empty task list selects nothing, whatever the
discovered tasks and the other parameters are (the empty list is not
treated as an absent parameter). -/
theorem select_tasks_empty_explicit_list (T : List Task) (tt tc : Option (List String))
    (v : Option Int) :
    select_tasks T tt tc v (some []) = [] := by
  have h : select_tasks T tt tc v (some []) =
      T.filter (fun x => nameMatches x.description.name []) ++ instancesOf [] := rfl
  rw [h, instancesOf, List.filterMap_nil, List.append_nil]
  exact List.filter_eq_nil_iff.mpr fun a _ => by simp [nameMatches]

/-- C4 counterexample: passing the same already-instantiated task twice in
the explicit list puts it in the selected set twice, so it is false that
every choice of constructor parameters yields a duplicate-free selection. -/
theorem select_tasks_duplicate_instance :
    (select_tasks [] none none none
        (some [TaskRef.byInst taskA, TaskRef.byInst taskA])).count taskA = 2 ∧
    ¬ (select_tasks [] none none none
        (some [TaskRef.byInst taskA, TaskRef.byInst taskA])).Nodup := by
  constructor <;> decide

/-- C4 amended: each task appears in the selected set at most once
provided the discovered set is duplicate-free and the explicit list (when
given) contains each already-instantiated task at most once and none of
them equal to a discovered task (in the source the discovered instances
are freshly constructed, so the latter holds at object identity). -/
theorem select_tasks_nodup (T : List Task) (tt tc : Option (List String))
    (v : Option Int) (tk : Option (List TaskRef)) (hT : T.Nodup)
    (hinst : ∀ L, tk = some L → (instancesOf L).Nodup ∧
      ∀ t ∈ instancesOf L, t ∉ T) :
    (select_tasks T tt tc v tk).Nodup := by
  cases tk with
  | none =>
      exact ((hT.filter _).filter _).filter _
  | some L =>
      obtain ⟨hL, hdisj⟩ := hinst L rfl
      refine (hT.filter _).append hL ?_
      intro a ha hb
      exact hdisj a hb (List.mem_of_mem_filter ha)

/-- C4 amended witness: a concrete duplicate-free discovered set and a
mixed explicit list satisfying the hypotheses yield a duplicate-free
selection. -/
theorem select_tasks_nodup_witness :
    ([taskA, taskB] : List Task).Nodup ∧
    (select_tasks [taskA, taskB] none none none
        (some [TaskRef.byName "A", TaskRef.byInst taskC])).Nodup :=
  ⟨by decide,
   select_tasks_nodup [taskA, taskB] none none none
      (some [TaskRef.byName "A", TaskRef.byInst taskC]) (by decide)
      (fun L hL => by
        cases hL
        exact ⟨by decide, by decide⟩)⟩

/-! ### Unfolding lemmas for the run loop -/

section RunLemmas

variable {ε ρ : Type} (evalFn : Task → String → Except ε ρ)

theorem runTasks_nil (out : Option String) (fs : FS ρ) :
    runTasks evalFn out [] fs = (fs, [], none) := rfl

theorem runTasks_cons_skip (folder : String) (t : Task) (rest : List Task) (fs : FS ρ)
    (hex : fileExists (savePath folder t) fs = true) :
    runTasks evalFn (some folder) (t :: rest) fs =
      ((runTasks evalFn (some folder) rest fs).1,
       Event.skip t :: (runTasks evalFn (some folder) rest fs).2.1,
       (runTasks evalFn (some folder) rest fs).2.2) := by
  simp only [runTasks, hex, if_true]

theorem runTasks_cons_error (folder : String) (t : Task) (rest : List Task) (fs : FS ρ)
    (e : ε) (hex : fileExists (savePath folder t) fs = false)
    (herr : (evalSplits evalFn t t.description.eval_splits).2 = Except.error e) :
    runTasks evalFn (some folder) (t :: rest) fs =
      (fs, (evalSplits evalFn t t.description.eval_splits).1, some e) := by
  simp only [runTasks, hex, Bool.false_eq_true, if_false, herr]

theorem runTasks_cons_write (folder : String) (t : Task) (rest : List Task) (fs : FS ρ)
    (results : List (String × ρ)) (hex : fileExists (savePath folder t) fs = false)
    (hok : (evalSplits evalFn t t.description.eval_splits).2 = Except.ok results) :
    runTasks evalFn (some folder) (t :: rest) fs =
      ((runTasks evalFn (some folder) rest
          (writeFile (savePath folder t) ⟨results, 2, true⟩ fs)).1,
       (evalSplits evalFn t t.description.eval_splits).1 ++
         [Event.write (savePath folder t) ⟨results, 2, true⟩] ++
         (runTasks evalFn (some folder) rest
            (writeFile (savePath folder t) ⟨results, 2, true⟩ fs)).2.1,
       (runTasks evalFn (some folder) rest
          (writeFile (savePath folder t) ⟨results, 2, true⟩ fs)).2.2) := by
  simp only [runTasks, hex, Bool.false_eq_true, if_false, hok]

theorem runTasks_none_cons_error (t : Task) (rest : List Task) (fs : FS ρ) (e : ε)
    (herr : (evalSplits evalFn t t.description.eval_splits).2 = Except.error e) :
    runTasks evalFn none (t :: rest) fs =
      (fs, (evalSplits evalFn t t.description.eval_splits).1, some e) := by
  simp only [runTasks, herr]

theorem runTasks_none_cons_ok (t : Task) (rest : List Task) (fs : FS ρ)
    (results : List (String × ρ))
    (hok : (evalSplits evalFn t t.description.eval_splits).2 = Except.ok results) :
    runTasks evalFn none (t :: rest) fs =
      ((runTasks evalFn none rest fs).1,
       (evalSplits evalFn t t.description.eval_splits).1 ++
         (runTasks evalFn none rest fs).2.1,
       (runTasks evalFn none rest fs).2.2) := by
  simp only [runTasks, hok]

theorem mkdir_files (folder : String) (fs : FS ρ) :
    (mkdir folder fs).files = fs.files := by
  unfold mkdir; split <;> rfl

theorem mkdir_mem (folder : String) (fs : FS ρ) :
    folder ∈ (mkdir folder fs).dirs := by
  unfold mkdir; split
  · next h => exact List.elem_iff.mp h
  · simp

theorem mkdir_of_mem (folder : String) (fs : FS ρ) (h : folder ∈ fs.dirs) :
    mkdir folder fs = fs := by
  unfold mkdir
  rw [if_pos (List.elem_iff.mpr h)]

theorem fileExists_mkdir (p folder : String) (fs : FS ρ) :
    fileExists p (mkdir folder fs) = fileExists p fs := by
  unfold fileExists
  rw [mkdir_files]

theorem fileExists_writeFile_mono (p q : String) (c : FileContent ρ) (fs : FS ρ)
    (h : fileExists p fs = true) : fileExists p (writeFile q c fs) = true := by
  unfold fileExists writeFile at *
  simp only [List.any_append, h, Bool.true_or]

theorem fileExists_writeFile_self (p : String) (c : FileContent ρ) (fs : FS ρ) :
    fileExists p (writeFile p c fs) = true := by
  unfold fileExists writeFile
  simp

theorem runTasks_dirs (out : Option String) (ts : List Task) :
    ∀ fs : FS ρ, ((runTasks evalFn out ts fs).1).dirs = fs.dirs := by
  induction ts with
  | nil => intro fs; rfl
  | cons t rest ih =>
    intro fs
    cases out with
    | some folder =>
      cases hex : fileExists (savePath folder t) fs with
      | true =>
        rw [runTasks_cons_skip evalFn folder t rest fs hex]
        exact ih fs
      | false =>
        cases hq : (evalSplits evalFn t t.description.eval_splits).2 with
        | error e => rw [runTasks_cons_error evalFn folder t rest fs e hex hq]
        | ok results =>
          rw [runTasks_cons_write evalFn folder t rest fs results hex hq]
          rw [ih _]
          rfl
    | none =>
      cases hq : (evalSplits evalFn t t.description.eval_splits).2 with
      | error e => rw [runTasks_none_cons_error evalFn t rest fs e hq]
      | ok results =>
        rw [runTasks_none_cons_ok evalFn t rest fs results hq]
        exact ih fs

theorem runTasks_fileExists_mono (out : Option String) (ts : List Task) (p : String) :
    ∀ fs : FS ρ, fileExists p fs = true →
      fileExists p (runTasks evalFn out ts fs).1 = true := by
  induction ts with
  | nil => intro fs h; exact h
  | cons t rest ih =>
    intro fs h
    cases out with
    | some folder =>
      cases hex : fileExists (savePath folder t) fs with
      | true =>
        rw [runTasks_cons_skip evalFn folder t rest fs hex]
        exact ih fs h
      | false =>
        cases hq : (evalSplits evalFn t t.description.eval_splits).2 with
        | error e =>
          rw [runTasks_cons_error evalFn folder t rest fs e hex hq]
          exact h
        | ok results =>
          rw [runTasks_cons_write evalFn folder t rest fs results hex hq]
          exact ih _ (fileExists_writeFile_mono p _ _ fs h)
    | none =>
      cases hq : (evalSplits evalFn t t.description.eval_splits).2 with
      | error e =>
        rw [runTasks_none_cons_error evalFn t rest fs e hq]
        exact h
      | ok results =>
        rw [runTasks_none_cons_ok evalFn t rest fs results hq]
        exact ih fs h

theorem runTasks_success_all_exist (folder : String) (ts : List Task) :
    ∀ fs : FS ρ, (runTasks evalFn (some folder) ts fs).2.2 = none →
      ∀ t ∈ ts, fileExists (savePath folder t) (runTasks evalFn (some folder) ts fs).1 = true := by
  induction ts with
  | nil => intro fs _ t ht; exact absurd ht (List.not_mem_nil t)
  | cons u rest ih =>
    intro fs h t ht
    cases hex : fileExists (savePath folder u) fs with
    | true =>
      rw [runTasks_cons_skip evalFn folder u rest fs hex] at h ⊢
      rcases List.mem_cons.mp ht with rfl | hmem
      · exact runTasks_fileExists_mono evalFn (some folder) rest _ fs hex
      · exact ih fs h t hmem
    | false =>
      cases hq : (evalSplits evalFn u u.description.eval_splits).2 with
      | error e =>
        rw [runTasks_cons_error evalFn folder u rest fs e hex hq] at h
        exact absurd h (by simp)
      | ok results =>
        rw [runTasks_cons_write evalFn folder u rest fs results hex hq] at h ⊢
        rcases List.mem_cons.mp ht with rfl | hmem
        · exact runTasks_fileExists_mono evalFn (some folder) rest _ _
            (fileExists_writeFile_self _ _ fs)
        · exact ih _ h t hmem

theorem runTasks_all_exist_skip (folder : String) (ts : List Task) (fs : FS ρ)
    (h : ∀ t ∈ ts, fileExists (savePath folder t) fs = true) :
    runTasks evalFn (some folder) ts fs = (fs, ts.map Event.skip, none) := by
  induction ts with
  | nil => rfl
  | cons t rest ih =>
    rw [runTasks_cons_skip evalFn folder t rest fs (h t (List.mem_cons_self t rest))]
    rw [ih fun u hu => h u (List.mem_cons_of_mem t hu)]
    rfl

theorem evalSplits_ok_events (t : Task) :
    ∀ S : List String, ∀ results : List (String × ρ),
      (evalSplits evalFn t S).2 = Except.ok results →
      (evalSplits evalFn t S).1 = S.map (Event.evalCall t) := by
  intro S
  induction S with
  | nil => intro results _; rfl
  | cons s ss ih =>
    intro results h
    cases hs : evalFn t s with
    | error e =>
      rw [show evalSplits evalFn t (s :: ss) =
          ([Event.evalCall t s], Except.error e) by
        simp only [evalSplits, hs]] at h
      exact absurd h (by simp)
    | ok v =>
      simp only [evalSplits, hs] at h ⊢
      cases hq : (evalSplits evalFn t ss).2 with
      | error e =>
        rw [hq] at h
        exact absurd h (by simp)
      | ok l =>
        simp only [List.map_cons, List.cons.injEq, true_and]
        exact ih l hq

theorem run_some (folder : String) (ts : List Task) (fs : FS ρ) :
    run evalFn (some folder) ts fs = runTasks evalFn (some folder) ts (mkdir folder fs) := rfl

theorem run_none (ts : List Task) (fs : FS ρ) :
    run evalFn none ts fs = runTasks evalFn none ts fs := rfl

theorem evalSplits_all_ok (t : Task) (r : String → ρ) :
    ∀ S : List String, (∀ s ∈ S, evalFn t s = Except.ok (r s)) →
      evalSplits evalFn t S =
        (S.map (Event.evalCall t), Except.ok (S.map fun s => (s, r s))) := by
  intro S
  induction S with
  | nil => intro _; rfl
  | cons s rest ih =>
    intro h
    have hs : evalFn t s = Except.ok (r s) := h s (List.mem_cons_self s rest)
    have hr := ih fun u hu => h u (List.mem_cons_of_mem s hu)
    simp only [evalSplits, hs, hr, List.map_cons]

theorem evalSplits_events (t : Task) :
    ∀ S : List String, ∀ ev ∈ (evalSplits evalFn t S).1, ∃ s, ev = Event.evalCall t s := by
  intro S
  induction S with
  | nil => intro ev hev; exact absurd hev (List.not_mem_nil ev)
  | cons s rest ih =>
    intro ev hev
    cases hs : evalFn t s with
    | error e =>
      simp only [evalSplits, hs] at hev
      rcases List.mem_singleton.mp hev with rfl
      exact ⟨s, rfl⟩
    | ok r =>
      simp only [evalSplits, hs] at hev
      rcases List.mem_cons.mp hev with rfl | hmem
      · exact ⟨s, rfl⟩
      · exact ih ev hmem

end RunLemmas

/-! ### Concrete collaborators used as witness inputs -/

/-- An evaluator that always succeeds with score 0. -/
def okEval : Task → String → Except Unit Nat := fun _ _ => Except.ok 0

/-- An evaluator that always raises. -/
def badEval : Task → String → Except String Nat := fun _ _ => Except.error "boom"

/-- The empty filesystem. -/
def emptyFS : FS Nat := ⟨[], []⟩

/-- C3: when a run over a non-`None` output folder completes without an
evaluation error, re-running with the same tasks against the resulting
filesystem skips every task, performs no `evaluate` call and no write,
and returns the filesystem unchanged. -/
theorem run_idempotent {ε ρ : Type} (evalFn : Task → String → Except ε ρ)
    (folder : String) (ts : List Task) (fs : FS ρ)
    (h : (run evalFn (some folder) ts fs).2.2 = none) :
    run evalFn (some folder) ts ((run evalFn (some folder) ts fs).1) =
      ((run evalFn (some folder) ts fs).1, ts.map Event.skip, none) ∧
    (∀ t s, Event.evalCall t s ∉
        (run evalFn (some folder) ts ((run evalFn (some folder) ts fs).1)).2.1) ∧
    (∀ p c, Event.write p c ∉
        (run evalFn (some folder) ts ((run evalFn (some folder) ts fs).1)).2.1) := by
  have hdirs : folder ∈ ((run evalFn (some folder) ts fs).1).dirs := by
    rw [run_some, runTasks_dirs]
    exact mkdir_mem folder fs
  have hmk : mkdir folder ((run evalFn (some folder) ts fs).1) =
      (run evalFn (some folder) ts fs).1 :=
    mkdir_of_mem _ _ hdirs
  have hex : ∀ t ∈ ts,
      fileExists (savePath folder t) ((run evalFn (some folder) ts fs).1) = true :=
    fun t ht => runTasks_success_all_exist evalFn folder ts (mkdir folder fs) h t ht
  have hrun2 : run evalFn (some folder) ts ((run evalFn (some folder) ts fs).1) =
      ((run evalFn (some folder) ts fs).1, ts.map Event.skip, none) := by
    rw [run_some evalFn folder ts ((run evalFn (some folder) ts fs).1), hmk]
    exact runTasks_all_exist_skip evalFn folder ts _ hex
  refine ⟨hrun2, ?_, ?_⟩ <;> (rw [hrun2]; simp)

/-- C3 witness: a concrete successful run over one task, replayed. -/
theorem run_idempotent_witness :
    (run okEval (some "results") [taskA] emptyFS).2.2 = none ∧
    (run okEval (some "results") [taskA]
        ((run okEval (some "results") [taskA] emptyFS).1) =
      ((run okEval (some "results") [taskA] emptyFS).1, [taskA].map Event.skip, none) ∧
    (∀ t s, Event.evalCall t s ∉
        (run okEval (some "results") [taskA]
          ((run okEval (some "results") [taskA] emptyFS).1)).2.1) ∧
    (∀ p c, Event.write p c ∉
        (run okEval (some "results") [taskA]
          ((run okEval (some "results") [taskA] emptyFS).1)).2.1)) :=
  ⟨rfl, run_idempotent okEval "results" [taskA] emptyFS rfl⟩

/-- C5: when the task loop ends with an uncaught evaluation error, the
task list splits as `pre ++ t :: post` where every task of `pre` completed
normally, `t` is the task whose `evaluate` raised; the final filesystem is
exactly the one after `pre` (files of earlier tasks intact, nothing
written for `t`), the trace is the trace of `pre` followed by `t`'s
evaluation calls (nothing of `post` ran), and `t`'s output file does not
exist in the final filesystem. -/
theorem runTasks_error_aborts {ε ρ : Type} (evalFn : Task → String → Except ε ρ)
    (out : Option String) (ts : List Task) (fs : FS ρ) (e : ε)
    (h : (runTasks evalFn out ts fs).2.2 = some e) :
    ∃ pre t post, ts = pre ++ t :: post ∧
      (runTasks evalFn out pre fs).2.2 = none ∧
      (runTasks evalFn out ts fs).1 = (runTasks evalFn out pre fs).1 ∧
      (evalSplits evalFn t t.description.eval_splits).2 = Except.error e ∧
      (runTasks evalFn out ts fs).2.1 =
        (runTasks evalFn out pre fs).2.1 ++
          (evalSplits evalFn t t.description.eval_splits).1 ∧
      ∀ folder, out = some folder →
        fileExists (savePath folder t) (runTasks evalFn out ts fs).1 = false := by
  induction ts generalizing fs with
  | nil => simp [runTasks_nil] at h
  | cons u rest ih =>
    cases out with
    | some folder =>
      cases hex : fileExists (savePath folder u) fs with
      | true =>
        rw [runTasks_cons_skip evalFn folder u rest fs hex] at h
        obtain ⟨pre, t, post, hts, hpre, hfs, hsp, htr, hnx⟩ := ih fs h
        refine ⟨u :: pre, t, post, by rw [hts]; rfl, ?_, ?_, hsp, ?_, ?_⟩
        · rw [runTasks_cons_skip evalFn folder u pre fs hex]
          exact hpre
        · rw [runTasks_cons_skip evalFn folder u rest fs hex,
            runTasks_cons_skip evalFn folder u pre fs hex]
          exact hfs
        · rw [runTasks_cons_skip evalFn folder u rest fs hex,
            runTasks_cons_skip evalFn folder u pre fs hex]
          simp only [List.cons_append]
          rw [htr]
        · intro f hf
          cases hf
          rw [runTasks_cons_skip evalFn folder u rest fs hex]
          exact hnx folder rfl
      | false =>
        cases hq : (evalSplits evalFn u u.description.eval_splits).2 with
        | error e' =>
          rw [runTasks_cons_error evalFn folder u rest fs e' hex hq] at h
          have heq : e' = e := by simpa using h
          rw [heq] at hq
          refine ⟨[], u, rest, rfl, rfl, ?_, hq, ?_, ?_⟩
          · rw [runTasks_cons_error evalFn folder u rest fs e hex hq]
            rfl
          · rw [runTasks_cons_error evalFn folder u rest fs e hex hq]
            rfl
          · intro f hf
            cases hf
            rw [runTasks_cons_error evalFn folder u rest fs e hex hq]
            exact hex
        | ok results =>
          rw [runTasks_cons_write evalFn folder u rest fs results hex hq] at h
          obtain ⟨pre, t, post, hts, hpre, hfs, hsp, htr, hnx⟩ :=
            ih (writeFile (savePath folder u) ⟨results, 2, true⟩ fs) h
          refine ⟨u :: pre, t, post, by rw [hts]; rfl, ?_, ?_, hsp, ?_, ?_⟩
          · rw [runTasks_cons_write evalFn folder u pre fs results hex hq]
            exact hpre
          · rw [runTasks_cons_write evalFn folder u rest fs results hex hq,
              runTasks_cons_write evalFn folder u pre fs results hex hq]
            exact hfs
          · rw [runTasks_cons_write evalFn folder u rest fs results hex hq,
              runTasks_cons_write evalFn folder u pre fs results hex hq]
            simp only [List.append_assoc, List.cons_append]
            rw [htr]
          · intro f hf
            cases hf
            rw [runTasks_cons_write evalFn folder u rest fs results hex hq]
            exact hnx folder rfl
    | none =>
      cases hq : (evalSplits evalFn u u.description.eval_splits).2 with
      | error e' =>
        rw [runTasks_none_cons_error evalFn u rest fs e' hq] at h
        have heq : e' = e := by simpa using h
        rw [heq] at hq
        refine ⟨[], u, rest, rfl, rfl, ?_, hq, ?_, ?_⟩
        · rw [runTasks_none_cons_error evalFn u rest fs e hq]
          rfl
        · rw [runTasks_none_cons_error evalFn u rest fs e hq]
          rfl
        · intro f hf
          cases hf
      | ok results =>
        rw [runTasks_none_cons_ok evalFn u rest fs results hq] at h
        obtain ⟨pre, t, post, hts, hpre, hfs, hsp, htr, hnx⟩ := ih fs h
        refine ⟨u :: pre, t, post, by rw [hts]; rfl, ?_, ?_, hsp, ?_, ?_⟩
        · rw [runTasks_none_cons_ok evalFn u pre fs results hq]
          exact hpre
        · rw [runTasks_none_cons_ok evalFn u rest fs results hq,
            runTasks_none_cons_ok evalFn u pre fs results hq]
          exact hfs
        · rw [runTasks_none_cons_ok evalFn u rest fs results hq,
            runTasks_none_cons_ok evalFn u pre fs results hq]
          simp only [List.append_assoc]
          rw [htr]
        · intro f hf
          cases hf

/-- C5 witness: a concrete two-task run whose second task's evaluator
raises, applied to the abort theorem. -/
theorem runTasks_error_aborts_witness :
    (runTasks badEval (some "results") [taskA] emptyFS).2.2 = some "boom" ∧
    (∃ pre t post, ([taskA] : List Task) = pre ++ t :: post ∧
      (runTasks badEval (some "results") pre emptyFS).2.2 = none ∧
      (runTasks badEval (some "results") [taskA] emptyFS).1 =
        (runTasks badEval (some "results") pre emptyFS).1 ∧
      (evalSplits badEval t t.description.eval_splits).2 = Except.error "boom" ∧
      (runTasks badEval (some "results") [taskA] emptyFS).2.1 =
        (runTasks badEval (some "results") pre emptyFS).2.1 ++
          (evalSplits badEval t t.description.eval_splits).1 ∧
      ∀ folder, (some "results" : Option String) = some folder →
        fileExists (savePath folder t)
          (runTasks badEval (some "results") [taskA] emptyFS).1 = false) :=
  ⟨rfl, runTasks_error_aborts badEval (some "results") [taskA] emptyFS "boom" rfl⟩

/-- C6: a task whose output file does not yet exist has each of its
declared splits evaluated exactly once, in declared order, and its result
file written at `<folder>/<name><save_suffix>.json` with exactly the
splits as keys, each mapped to the value `evaluate` returned, serialized
with `indent=2` and `sort_keys=True`. -/
theorem runTasks_single_writes {ε ρ : Type} (evalFn : Task → String → Except ε ρ)
    (folder : String) (t : Task) (fs : FS ρ) (r : String → ρ)
    (hex : fileExists (savePath folder t) fs = false)
    (hok : ∀ s ∈ t.description.eval_splits, evalFn t s = Except.ok (r s)) :
    runTasks evalFn (some folder) [t] fs =
      (writeFile (savePath folder t)
         ⟨t.description.eval_splits.map (fun s => (s, r s)), 2, true⟩ fs,
       t.description.eval_splits.map (Event.evalCall t) ++
         [Event.write (savePath folder t)
            ⟨t.description.eval_splits.map (fun s => (s, r s)), 2, true⟩],
       none) ∧
    (t.description.eval_splits.map (fun s => (s, r s))).map Prod.fst =
      t.description.eval_splits := by
  have hsp := evalSplits_all_ok evalFn t r t.description.eval_splits hok
  constructor
  · rw [runTasks_cons_write evalFn folder t [] fs _ hex (by rw [hsp])]
    rw [runTasks_nil, hsp]
    simp
  · rw [List.map_map]
    exact List.map_id'' (fun x => rfl) _

/-- C6 witness: a two-split task evaluated against the empty filesystem. -/
theorem runTasks_single_writes_witness :
    fileExists (savePath "results" taskB) emptyFS = false ∧
    (runTasks okEval (some "results") [taskB] emptyFS =
      (writeFile (savePath "results" taskB)
         ⟨taskB.description.eval_splits.map (fun s => (s, 0)), 2, true⟩ emptyFS,
       taskB.description.eval_splits.map (Event.evalCall taskB) ++
         [Event.write (savePath "results" taskB)
            ⟨taskB.description.eval_splits.map (fun s => (s, 0)), 2, true⟩],
       none) ∧
    (taskB.description.eval_splits.map (fun s => (s, 0))).map Prod.fst =
      taskB.description.eval_splits) :=
  ⟨rfl, runTasks_single_writes okEval "results" taskB emptyFS (fun _ => 0) rfl
    (fun _ _ => rfl)⟩

theorem runTasks_none_fs {ε ρ : Type} (evalFn : Task → String → Except ε ρ)
    (ts : List Task) : ∀ fs : FS ρ, (runTasks evalFn none ts fs).1 = fs := by
  induction ts with
  | nil => intro fs; rfl
  | cons t rest ih =>
    intro fs
    cases hq : (evalSplits evalFn t t.description.eval_splits).2 with
    | error e => rw [runTasks_none_cons_error evalFn t rest fs e hq]
    | ok results =>
      rw [runTasks_none_cons_ok evalFn t rest fs results hq]
      exact ih fs

theorem runTasks_none_trace {ε ρ : Type} (evalFn : Task → String → Except ε ρ)
    (ts : List Task) :
    ∀ fs : FS ρ,
      (∀ ev ∈ (runTasks evalFn none ts fs).2.1, ∃ t s, ev = Event.evalCall t s) ∧
      ((runTasks evalFn none ts fs).2.2 = none →
        (runTasks evalFn none ts fs).2.1 =
          ts.flatMap fun t => t.description.eval_splits.map (Event.evalCall t)) := by
  induction ts with
  | nil =>
    intro fs
    exact ⟨fun ev hev => absurd hev (List.not_mem_nil ev), fun _ => rfl⟩
  | cons t rest ih =>
    intro fs
    cases hq : (evalSplits evalFn t t.description.eval_splits).2 with
    | error e =>
      rw [runTasks_none_cons_error evalFn t rest fs e hq]
      refine ⟨fun ev hev => ?_, fun hnone => by simp at hnone⟩
      obtain ⟨s, rfl⟩ := evalSplits_events evalFn t t.description.eval_splits ev hev
      exact ⟨t, s, rfl⟩
    | ok results =>
      rw [runTasks_none_cons_ok evalFn t rest fs results hq]
      obtain ⟨ihev, ihtr⟩ := ih fs
      refine ⟨fun ev hev => ?_, fun hnone => ?_⟩
      · rcases List.mem_append.mp hev with hmem | hmem
        · obtain ⟨s, rfl⟩ := evalSplits_events evalFn t t.description.eval_splits ev hmem
          exact ⟨t, s, rfl⟩
        · exact ihev ev hmem
      · rw [List.flatMap_cons, ihtr hnone,
          evalSplits_ok_events evalFn t t.description.eval_splits results hq]

/-- C7: with `output_folder=None` the filesystem is untouched (no
directory created, no file written), every event of the trace is an
`evaluate` call (no skip check, no write), and when no error occurs every
selected task is evaluated on every split. -/
theorem run_no_output_folder {ε ρ : Type} (evalFn : Task → String → Except ε ρ)
    (ts : List Task) (fs : FS ρ) :
    (run evalFn none ts fs).1 = fs ∧
    (∀ ev ∈ (run evalFn none ts fs).2.1, ∃ t s, ev = Event.evalCall t s) ∧
    ((run evalFn none ts fs).2.2 = none →
      (run evalFn none ts fs).2.1 =
        ts.flatMap fun t => t.description.eval_splits.map (Event.evalCall t)) := by
  rw [run_none]
  exact ⟨runTasks_none_fs evalFn ts fs, (runTasks_none_trace evalFn ts fs).1,
    (runTasks_none_trace evalFn ts fs).2⟩

/-- Helper for C8: a selection whose loaders all succeed is loaded
entirely, in order, each task once. -/
theorem loadTasksData_all_ok {ε : Type} (loadFn : Task → Option ε) :
    ∀ ts : List Task, (∀ t ∈ ts, loadFn t = none) →
      loadTasksData loadFn ts = (ts, none) := by
  intro ts
  induction ts with
  | nil => intro _; rfl
  | cons t rest ih =>
    intro h
    have ht : loadFn t = none := h t (List.mem_cons_self t rest)
    have hr := ih fun u hu => h u (List.mem_cons_of_mem t hu)
    simp only [loadTasksData, ht, hr]

/-- Helper for C8: the first failing loader stops the loading loop. -/
theorem loadTasksData_error {ε : Type} (loadFn : Task → Option ε) (t : Task)
    (post : List Task) (e : ε) (he : loadFn t = some e) :
    ∀ pre : List Task, (∀ u ∈ pre, loadFn u = none) →
      loadTasksData loadFn (pre ++ t :: post) = (pre ++ [t], some e) := by
  intro pre
  induction pre with
  | nil =>
    intro _
    simp only [List.nil_append, loadTasksData, he]
  | cons u us ih =>
    intro h
    have hu : loadFn u = none := h u (List.mem_cons_self u us)
    have hr := ih fun w hw => h w (List.mem_cons_of_mem u hw)
    simp only [List.cons_append, loadTasksData, hu, List.append_eq, hr]

/-- C8: session construction loads the data of every selected task
exactly once, in selection order (the invocation list equals the selected
list when all loaders succeed), and a raising loader propagates: the
loaders of all earlier tasks ran, the failing one ran, and no later
loader was invoked.  `mtebInit` performs this immediately after
selection, before `run` (and hence any evaluation) can be called. -/
theorem mteb_init_loads_in_order {ε : Type} (loadFn : Task → Option ε)
    (ts : List Task) :
    ((∀ t ∈ ts, loadFn t = none) → loadTasksData loadFn ts = (ts, none)) ∧
    (∀ pre t post e, ts = pre ++ t :: post → (∀ u ∈ pre, loadFn u = none) →
      loadFn t = some e → loadTasksData loadFn ts = (pre ++ [t], some e)) ∧
    (∀ tcl tt tc v tk, mtebInit loadFn tcl tt tc v tk =
      (select_tasks tcl tt tc v tk,
       (loadTasksData loadFn (select_tasks tcl tt tc v tk)).1,
       (loadTasksData loadFn (select_tasks tcl tt tc v tk)).2)) := by
  refine ⟨loadTasksData_all_ok loadFn ts, ?_, fun tcl tt tc v tk => rfl⟩
  intro pre t post e hts hpre he
  rw [hts]
  exact loadTasksData_error loadFn t post e he pre hpre

/-- C10: `run`'s `output_folder` parameter defaults to the non-`None`
path `"results/result"`: running with the default creates that directory,
performs the duplicate-skip check against it (an already-existing result
file makes the first event a skip), and persists result files into it. -/
theorem run_default_output_folder {ε ρ : Type} (evalFn : Task → String → Except ε ρ)
    (ts : List Task) (fs : FS ρ) (t : Task) :
    defaultOutputFolder = some "results/result" ∧
    "results/result" ∈ ((run evalFn defaultOutputFolder ts fs).1).dirs ∧
    (∀ rest, ts = t :: rest →
      fileExists (savePath "results/result" t) fs = true →
      (run evalFn defaultOutputFolder ts fs).2.1 =
        Event.skip t ::
          (runTasks evalFn defaultOutputFolder rest (mkdir "results/result" fs)).2.1) ∧
    (∀ results, fileExists (savePath "results/result" t) fs = false →
      (evalSplits evalFn t t.description.eval_splits).2 = Except.ok results →
      (run evalFn defaultOutputFolder [t] fs).1 =
        writeFile (savePath "results/result" t) ⟨results, 2, true⟩
          (mkdir "results/result" fs)) := by
  refine ⟨rfl, ?_, ?_, ?_⟩
  · rw [show defaultOutputFolder = some "results/result" from rfl, run_some,
      runTasks_dirs]
    exact mkdir_mem _ fs
  · intro rest hts hex
    rw [hts, show defaultOutputFolder = some "results/result" from rfl, run_some]
    rw [runTasks_cons_skip evalFn "results/result" t rest (mkdir "results/result" fs)
      (by rw [fileExists_mkdir]; exact hex)]
  · intro results hex hok
    rw [show defaultOutputFolder = some "results/result" from rfl, run_some]
    rw [runTasks_cons_write evalFn "results/result" t [] (mkdir "results/result" fs)
      results (by rw [fileExists_mkdir]; exact hex) hok]
    rw [runTasks_nil]

end Mteb
